import Mathlib

/-!
Shallow embedding of the Adaptive Preference Learning Engine of
`smarthome_mock_ai` (`src/smarthome_mock_ai/learning.py`, class
`PreferenceModel`), together with theorems settling the claims about it.

Modelling conventions:
* Python dicts are insertion-ordered association lists; `d[k] += x` on a
  `defaultdict` updates the stored key in place (keeping its position) or
  appends a fresh entry at the end.
* Python numbers appearing as dict keys or argument values are modelled by
  `PVal`: ints as `ℤ`, floats as `ℚ` (every float produced by this program is
  parsed from a short finite-decimal literal, on which IEEE-754 doubles and the
  additions `+1.0` / `+2.0` performed here are exact), plus strings and `None`.
  Python `==` compares ints and floats numerically, which `pyEq` mirrors.
* The ambient wall clock (`datetime.now().hour`, used only when a context has
  no `time_of_day` entry) is an explicit parameter `now`.
* The SQLite store and the snapshot file are explicit values: a store is
  either an error (any `sqlite3.Error`) or the list of rows the training query
  returns; a snapshot file is absent, unparseable, or a parsed JSON document.
-/

namespace SmartHomeAI

/-- A Python value as it occurs in this program: an int, a float, a string or
`None`.  (Other JSON types do not occur as learned values or dict keys here.) -/
inductive PVal where
  | pint (n : ℤ)
  | pfloat (q : ℚ)
  | pstr (s : String)
  | pnone
deriving DecidableEq, Repr

/-- Python `==` on `PVal`: ints and floats compare by numeric value,
strings only to equal strings, `None` only to `None`. -/
def pyEq : PVal → PVal → Bool
  | .pint a, .pint b => a == b
  | .pint a, .pfloat b => (a : ℚ) == b
  | .pfloat a, .pint b => a == (b : ℚ)
  | .pfloat a, .pfloat b => a == b
  | .pstr a, .pstr b => a == b
  | .pnone, .pnone => true
  | _, _ => false

/-- Dict lookup `d.get(k)` / `k in d`: first entry whose stored key equals `k`
under the key-equality `eq`. -/
def aGet (eq : κ → κ → Bool) (m : List (κ × α)) (k : κ) : Option α :=
  (m.find? (fun p => eq p.1 k)).map Prod.snd

/-- Model of `defaultdict` access-and-update `d[k] = f(d[k])` with default `d0`:
updates the first matching entry in place (the stored key and its position are
kept, as in a Python dict), otherwise appends the new entry at the end. -/
def aBump (eq : κ → κ → Bool) (m : List (κ × α)) (k : κ) (d0 : α) (f : α → α) :
    List (κ × α) :=
  match m with
  | [] => [(k, f d0)]
  | (k', v) :: rest =>
    if eq k' k then (k', f v) :: rest
    else (k', v) :: aBump eq rest k d0 f

/-- Dict assignment `d[k] = v`: overwrite in place or append. -/
def aSet (eq : κ → κ → Bool) (m : List (κ × α)) (k : κ) (v : α) : List (κ × α) :=
  aBump eq m k v (fun _ => v)

/-- Key equality for string-keyed dicts (tool names, context keys,
argument names). -/
def strEq (a b : String) : Bool := a == b

/-- Lookup `aGet` specialised to string keys. -/
def sGet (m : List (String × α)) (k : String) : Option α := aGet strEq m k

/-- Lookup `aGet` specialised to `PVal` keys with Python `==`. -/
def pGet (m : List (PVal × α)) (k : PVal) : Option α := aGet pyEq m k

/-- Model of `PreferenceModel.TIME_PERIODS`, in source (dict insertion) order. -/
def TIME_PERIODS : List (String × (ℤ × ℤ)) :=
  [("early_morning", (5, 8)),
   ("morning", (8, 12)),
   ("afternoon", (12, 17)),
   ("evening", (17, 21)),
   ("night", (21, 24)),
   ("late_night", (0, 5))]

/-- Model of `PreferenceModel.LEARNABLE_PARAMS`. -/
def LEARNABLE_PARAMS : List (String × String) :=
  [("set_temperature", "temp"),
   ("set_light_brightness", "level"),
   ("set_fan_speed", "speed")]

/-- Model of `PreferenceModel.min_confidence`. -/
def min_confidence : ℤ := 2

/-- Model of `PreferenceModel._get_time_period`: first period whose hour range contains
the hour, else the `"night"` fallback.  `hour = none` models an absent
`time_of_day` key, in which case the current hour `now` is used. -/
def get_time_period (now : ℤ) (hour : Option ℤ) : String :=
  let h := hour.getD now
  match TIME_PERIODS.find? (fun p => decide (p.2.1 ≤ h ∧ h < p.2.2)) with
  | some p => p.1
  | none => "night"

/-- A logged context, as read back by `json.loads`: the engine uses
`time_of_day` (absent key → current hour) and `day_of_week`
(absent key → `0`, folded into the field here). -/
structure Context where
  time_of_day : Option ℤ
  day_of_week : ℤ
deriving DecidableEq, Repr

/-- Model of `PreferenceModel._get_context_key`. -/
def get_context_key (now : ℤ) (ctx : Context) : String :=
  let time_period := get_time_period now ctx.time_of_day
  let suffix := if ctx.day_of_week ≥ 5 then "_weekend" else "_weekday"
  time_period ++ suffix

/-! ### Correction extraction (`_learn_from_correction`'s regexes)

The three patterns are `(\d+\.?\d*)\s*[度°C]`, `(\d+)\s*[%]` and `(\d+)\s*档`,
applied with `re.search`.  For these patterns greedy matching never needs to
backtrack (shrinking `\d+`, `\.?`, `\d*` or `\s*` can only move a
non-matching character in front of the next mandatory element), so a match at
a position is: a maximal digit run, an optional `.` followed by a maximal
digit run, a maximal whitespace run, then a unit character; `re.search` takes
the leftmost position at which this succeeds.  `\s` is modelled by the ASCII
whitespace characters (the Unicode spaces it also accepts never occur here).
-/

/-- Python `\s`, restricted to ASCII whitespace. -/
def isPySpace (c : Char) : Bool :=
  c == ' ' || c == '\t' || c == '\n' || c == '\x0d' || c == '\x0b' || c == '\x0c'

/-- Value of Python `int` on a run of decimal digits. -/
def digitsToNat (ds : List Char) : ℕ :=
  ds.foldl (fun a c => 10 * a + (c.toNat - '0'.toNat)) 0

/-- Value of Python `float` on a matched group `digits[.digits]` (all such
literals are finite decimals, read exactly): the rational
`intPart.frac = (intPart·10^k + frac) / 10^k`. -/
def groupToFloat (intPart frac : List Char) : ℚ :=
  mkRat (digitsToNat intPart * 10 ^ frac.length + digitsToNat frac)
    (10 ^ frac.length)

/-- Try the temperature pattern `(\d+\.?\d*)\s*[度°C]` at the start of `cs`;
return the float value of group 1 on success. -/
def tempAt (cs : List Char) : Option ℚ :=
  let d1 := cs.takeWhile Char.isDigit
  let rest1 := cs.dropWhile Char.isDigit
  if d1.isEmpty then none
  else
    let (frac, rest2) :=
      match rest1 with
      | '.' :: r => (r.takeWhile Char.isDigit, r.dropWhile Char.isDigit)
      | _ => ([], rest1)
    match rest2.dropWhile isPySpace with
    | u :: _ =>
      if u == '度' || u == '°' || u == 'C' then some (groupToFloat d1 frac)
      else none
    | [] => none

/-- Try an `(\d+)\s*<unit>` pattern at the start of `cs`; return the int value
of group 1 on success. -/
def intUnitAt (unit : Char) (cs : List Char) : Option ℤ :=
  let d1 := cs.takeWhile Char.isDigit
  let rest1 := cs.dropWhile Char.isDigit
  if d1.isEmpty then none
  else
    match rest1.dropWhile isPySpace with
    | u :: _ => if u == unit then some (digitsToNat d1 : ℤ) else none
    | [] => none

/-- Model of `re.search`: try the position matcher at each position, leftmost first. -/
def searchAt (f : List Char → Option α) : List Char → Option α
  | [] => none
  | c :: rest =>
    match f (c :: rest) with
    | some v => some v
    | none => searchAt f rest

/-- Model of `re.search(r"(\d+\.?\d*)\s*[度°C]", correction)` followed by
`float(match.group(1))`. -/
def extractTemp (correction : String) : Option ℚ :=
  searchAt tempAt correction.toList

/-- Model of `re.search(r"(\d+)\s*[%%]", correction)` followed by
`int(match.group(1))`. -/
def extractBrightness (correction : String) : Option ℤ :=
  searchAt (intUnitAt '%') correction.toList

/-- Model of `re.search(r"(\d+)\s*档", correction)` followed by
`int(match.group(1))`. -/
def extractSpeed (correction : String) : Option ℤ :=
  searchAt (intUnitAt '档') correction.toList

/-! ### The preference tables and the model state -/

/-- Weight table `self.preferences`: tool → context key → value → float. -/
abbrev WTable := List (String × List (String × List (PVal × ℚ)))

/-- Confidence table `self.confidence`: tool → context key → value → int. -/
abbrev CTable := List (String × List (String × List (PVal × ℤ)))

/-- The mutable state of a `PreferenceModel` (its two nested-dict tables;
`db_path` and the constant `min_confidence` are kept outside the state). -/
structure Model where
  preferences : WTable
  confidence : CTable
deriving DecidableEq, Repr

/-- A freshly constructed `PreferenceModel`: both tables empty. -/
def Model.init : Model := { preferences := [], confidence := [] }

/-- Addition of rationals, written out on numerators and denominators so
that it evaluates by kernel reduction (the library's `Rat.add` is sealed);
`ratAdd_eq_add` proves it equal to `+`.  The program's float additions
(`+2.0`, `+1.0` on short finite decimals) are exact, so rational addition is
their faithful model. -/
def ratAdd (a b : ℚ) : ℚ :=
  mkRat (a.num * b.den + b.num * a.den) (a.den * b.den)

/-- Model of `self.preferences[tool][ck][v] += inc` on the triple `defaultdict`
(each missing level is created on first touch). -/
def wBump (t : WTable) (tool ck : String) (v : PVal) (inc : ℚ) : WTable :=
  aBump strEq t tool []
    (fun mid => aBump strEq mid ck []
      (fun inner => aBump pyEq inner v 0 (fun w => ratAdd w inc)))

/-- Model of `self.confidence[tool][ck][v] += 1` on the triple `defaultdict`. -/
def cBump (t : CTable) (tool ck : String) (v : PVal) : CTable :=
  aBump strEq t tool []
    (fun mid => aBump strEq mid ck []
      (fun inner => aBump pyEq inner v 0 (fun c => c + 1)))

/-- A single learning event: weight `+inc`, confidence `+1` at one
`(tool, context key, value)` triple. -/
def Model.bump (m : Model) (tool ck : String) (v : PVal) (inc : ℚ) : Model :=
  { preferences := wBump m.preferences tool ck v inc,
    confidence := cBump m.confidence tool ck v }

/-- The mutable statistics dict built during `train` (`tools_updated` is a
Python set, modelled as a duplicate-free list in insertion order; the claims
use only membership and emptiness of it). -/
structure Stats where
  preferences_learned : ℤ
  tools_updated : List String
deriving DecidableEq, Repr

/-- Model of `set.add`. -/
def setAdd (l : List String) (x : String) : List String :=
  if l.contains x then l else l ++ [x]

/-- One `stats["preferences_learned"] += 1; stats["tools_updated"].add(tool)`
step. -/
def Stats.bump (s : Stats) (tool : String) : Stats :=
  { preferences_learned := s.preferences_learned + 1,
    tools_updated := setAdd s.tools_updated tool }

/-- Model of `PreferenceModel._learn_from_correction`: the three pattern families are
tried independently, in source order; each match adds weight `+2.0` and
confidence `+1` under the record's own context key.  (The unused
`agent_action` parameter of the source is omitted.) -/
def learn_from_correction (now : ℤ) (m : Model) (correction : String)
    (ctx : Context) (stats : Stats) : Model × Stats :=
  let p1 :=
    match extractTemp correction with
    | some t =>
      let ck := get_context_key now ctx
      (m.bump "set_temperature" ck (.pfloat t) 2, stats.bump "set_temperature")
    | none => (m, stats)
  let p2 :=
    match extractBrightness correction with
    | some b =>
      let ck := get_context_key now ctx
      (p1.1.bump "set_light_brightness" ck (.pint b) 2,
       p1.2.bump "set_light_brightness")
    | none => p1
  match extractSpeed correction with
  | some sp =>
    let ck := get_context_key now ctx
    (p2.1.bump "set_fan_speed" ck (.pint sp) 2, p2.2.bump "set_fan_speed")
  | none => p2

/-- One `{tool, arguments}` entry of an `agent_action.actions` list
(`action.get("tool")` may be absent; argument values are `PVal`s). -/
structure ActionCall where
  tool : Option String
  arguments : List (String × PVal)
deriving DecidableEq, Repr

/-- A parsed `agent_action` document (`"actions"` key may be absent). -/
structure AgentAction where
  actions : Option (List ActionCall)
deriving DecidableEq, Repr

/-- One iteration of the `for action in agent_action["actions"]` loop of
`_reinforce_action`. -/
def reinforce_step (now : ℤ) (ctx : Context) (p : Model × Stats)
    (act : ActionCall) : Model × Stats :=
  match act.tool with
  | some tool_name =>
    match sGet LEARNABLE_PARAMS tool_name with
    | some param_name =>
      match sGet act.arguments param_name with
      | some value =>
        let ck := get_context_key now ctx
        (p.1.bump tool_name ck value 1, p.2.bump tool_name)
      | none => p
    | none => p
  | none => p

/-- Model of `PreferenceModel._reinforce_action`: weight `+1.0`, confidence `+1` for
every learnable action whose argument set carries the learnable parameter. -/
def reinforce_action (now : ℤ) (m : Model) (agent_action : AgentAction)
    (ctx : Context) (stats : Stats) : Model × Stats :=
  match agent_action.actions with
  | none => (m, stats)
  | some acts => acts.foldl (reinforce_step now ctx) (m, stats)

/-- A row of `interaction_logs` as `train` reads it.  `agent_action` and
`context` are the results of `json.loads` (`none` = the JSON is unparseable,
which makes `_learn_from_interaction` skip the row); `corrected_command` is
`NULL` or text. -/
structure Row where
  agent_action : Option AgentAction
  context : Option Context
  user_feedback : Option ℤ
  corrected_command : Option String
deriving DecidableEq, Repr

/-- Truthiness of `interaction["corrected_command"]`: present and non-empty. -/
def truthyCorrection : Option String → Bool
  | some s => s ≠ ""
  | none => false

/-- Model of `PreferenceModel._learn_from_interaction`: dispatch one row by feedback
sign; a row whose `agent_action` or `context` fails to parse is skipped. -/
def learn_from_interaction (now : ℤ) (m : Model) (row : Row) (stats : Stats) :
    Model × Stats :=
  match row.agent_action, row.context with
  | some aa, some ctx =>
    match row.user_feedback with
    | some f =>
      if f == -1 then
        if truthyCorrection row.corrected_command then
          learn_from_correction now m (row.corrected_command.getD "") ctx stats
        else (m, stats)
      else if f == 1 then reinforce_action now m aa ctx stats
      else (m, stats)
    | none => (m, stats)
  | _, _ => (m, stats)

/-- The interaction store: either a `sqlite3.Error` (message) or the logged
rows in the order the training query returns them (timestamp-descending). -/
structure Store where
  db : Except String (List Row)

/-- The value `train` returns on success. -/
structure TrainStats where
  total_interactions : ℕ
  preferences_learned : ℤ
  tools_updated : List String
deriving DecidableEq, Repr

/-- Model of `PreferenceModel.train`: clear both tables, then rebuild them from every
feedback-bearing row; a database error is returned (not raised), after the
tables have already been cleared. -/
def train (now : ℤ) (store : Store) (_m : Model) :
    Model × Except String TrainStats :=
  let cleared : Model := { preferences := [], confidence := [] }
  match store.db with
  | .error e => (cleared, .error ("Database error during training: " ++ e))
  | .ok allRows =>
    let corrections := allRows.filter (fun r => r.user_feedback.isSome)
    let init : Stats := { preferences_learned := 0, tools_updated := [] }
    let result :=
      corrections.foldl (fun p r => learn_from_interaction now p.1 r p.2)
        (cleared, init)
    (result.1, .ok { total_interactions := corrections.length,
                     preferences_learned := result.2.preferences_learned,
                     tools_updated := result.2.tools_updated })

/-! ### Prediction and adjustment

`predict` and `adjust_arguments` are written state-threaded
(`Model → … → Model × result`), mirroring statement-by-statement that every
table access they perform is a non-inserting `dict.get`, so the returned
state can be compared with the input state.
-/

/-- The dictionary `predict` returns.  `suggested_value` starts as Python
`None` (`.pnone`) and is replaced by any value with a strictly larger count. -/
structure Prediction where
  parameter : String
  original_value : PVal
  suggested_value : PVal
  confidence : ℤ
  context : String
deriving DecidableEq, Repr

/-- The `for value, conf in confs.items()` loop of `predict`: the first value
(in dict insertion order) with a strictly larger count wins, starting from
`(None, 0)`. -/
def bestOf (confs : List (PVal × ℤ)) : PVal × ℤ :=
  confs.foldl
    (fun acc p => if p.2 > acc.2 then (p.1, p.2) else acc)
    (.pnone, 0)

/-- Model of `self.preferences.get(tool, {}).get(ck, {})` (non-inserting). -/
def getSub (t : List (String × List (String × α))) (tool ck : String) :
    Option α :=
  (sGet t tool).bind (fun mid => sGet mid ck)

/-- Model of `PreferenceModel.predict`. -/
def predict (now : ℤ) (m : Model) (tool_name : String)
    (arguments : List (String × PVal)) (ctx : Context) :
    Model × Option Prediction :=
  match sGet LEARNABLE_PARAMS tool_name with
  | none => (m, none)
  | some param_name =>
    match sGet arguments param_name with
    | none => (m, none)
    | some current_value =>
      let context_key := get_context_key now ctx
      let prefs := (getSub m.preferences tool_name context_key).getD []
      let confs := (getSub m.confidence tool_name context_key).getD []
      if prefs.isEmpty || confs.isEmpty then (m, none)
      else
        let best := bestOf confs
        if best.2 ≥ min_confidence ∧ pyEq best.1 current_value = false then
          (m, some { parameter := param_name,
                     original_value := current_value,
                     suggested_value := best.1,
                     confidence := best.2,
                     context := context_key })
        else (m, none)

/-- Python `str` of a value, for the explanation message (float keys never
reach it in practice, but `repr`-style rendering is given for totality
below via `floatRepr`). -/
def tool_display_names : List (String × String) :=
  [("set_temperature", "温度"),
   ("set_light_brightness", "亮度"),
   ("set_fan_speed", "风速")]

/-- Least `k` with `den ∣ 10^k` (bounded search; every float this program
produces is a finite decimal, so the bound is never hit for them). -/
def decDigits (den : ℕ) : Option ℕ :=
  (List.range 40).find? (fun k => 10 ^ k % den == 0)

/-- Decimal digit string of a natural number, zero-padded to `width`. -/
def natDecimal (n width : ℕ) : String :=
  let s := toString n
  String.mk (List.replicate (width - s.length) '0') ++ s

/-- Python `repr`/`str` of a float, for the finite-decimal floats this
program produces (shortest decimal form, integral floats rendered `n.0`;
the impossible non-decimal case falls back to a fraction rendering). -/
def floatRepr (q : ℚ) : String :=
  let sign := if q.num < 0 then "-" else ""
  let n := q.num.natAbs
  match decDigits q.den with
  | some 0 => sign ++ toString n ++ ".0"
  | some k =>
    let scaled := n * (10 ^ k / q.den)
    sign ++ toString (scaled / 10 ^ k) ++ "." ++ natDecimal (scaled % 10 ^ k) k
  | none => sign ++ toString n ++ "/" ++ toString q.den

/-- Python `str` of a `PVal` (f-string interpolation). -/
def pyStr : PVal → String
  | .pint n => toString n
  | .pfloat q => floatRepr q
  | .pstr s => s
  | .pnone => "None"

/-- Model of `PreferenceModel.adjust_arguments`. -/
def adjust_arguments (now : ℤ) (m : Model) (tool_name : String)
    (arguments : List (String × PVal)) (ctx : Context) :
    Model × (List (String × PVal) × Option String) :=
  let r := predict now m tool_name arguments ctx
  match r.2 with
  | none => (r.1, (arguments, none))
  | some prediction =>
    let adjusted :=
      aSet strEq arguments prediction.parameter prediction.suggested_value
    let param_display :=
      (sGet tool_display_names tool_name).getD prediction.parameter
    let explanation :=
      "🤖 根据您的习惯 (" ++ prediction.context ++ "),"
        ++ "我已将" ++ param_display ++ "调整为 "
        ++ pyStr prediction.suggested_value
        ++ " (置信度: " ++ toString prediction.confidence ++ ")"
    (r.1, (adjusted, some explanation))

/-! ### Persistence (`save_preferences` / `load_preferences`)

`json.dump` converts every non-string dict key to a string (ints via
`int.__repr__`, floats via `float.__repr__`, `None` to `"null"`), and does not
deduplicate keys that collide after conversion; `json.load` rebuilds plain
dicts, a duplicated key keeping its first position and last value.  The file
system is explicit: a write either succeeds or raises an `OSError`, and a read
finds the file absent, unparseable, or a parsed snapshot document. -/

/-- JSON key conversion of `json.dump` on a `PVal` dict key. -/
def jsonKeyStr : PVal → String
  | .pint n => toString n
  | .pfloat q => floatRepr q
  | .pstr s => s
  | .pnone => "null"

/-- One serialized table: value keys stringified, entries in dict order. -/
def dumpTable (t : List (String × List (String × List (PVal × α)))) :
    List (String × List (String × List (String × α))) :=
  t.map (fun tp => (tp.1, tp.2.map (fun cp =>
    (cp.1, cp.2.map (fun vp => (jsonKeyStr vp.1, vp.2))))))

/-- The document `save_preferences` writes. -/
structure Snapshot where
  preferences : List (String × List (String × List (String × ℚ)))
  confidence : List (String × List (String × List (String × ℤ)))
  trained_at : String
deriving DecidableEq, Repr

/-- Outcome of `open(filepath, "w")` + `json.dump` in the environment. -/
inductive WriteOutcome where
  | success
  | ioError (msg : String)

/-- Model of `PreferenceModel.save_preferences`: builds the snapshot and writes it;
there is no `try`/`except` in the source, so a failing write propagates the
`OSError` (modelled as `Except.error`).  On success the written document and
the returned filepath are produced. -/
def save_preferences (m : Model) (filepath trained_at : String)
    (w : WriteOutcome) : Except String (Snapshot × String) :=
  let data : Snapshot :=
    { preferences := dumpTable m.preferences,
      confidence := dumpTable m.confidence,
      trained_at := trained_at }
  match w with
  | .ioError e => .error e
  | .success => .ok (data, filepath)

/-- Rebuild one JSON object as `json.load` does: insert pairs in document
order, a duplicate key keeping its first position and taking the last value. -/
def jsonObj (l : List (String × α)) : List (String × α) :=
  l.foldl (fun acc p => aSet strEq acc p.1 p.2) []

/-- Model of `json.load` on a written snapshot document: plain dicts at every level. -/
def parseSnapshot (s : Snapshot) : Snapshot :=
  { preferences := jsonObj (s.preferences.map (fun tp =>
      (tp.1, jsonObj (tp.2.map (fun cp => (cp.1, jsonObj cp.2)))))),
    confidence := jsonObj (s.confidence.map (fun tp =>
      (tp.1, jsonObj (tp.2.map (fun cp => (cp.1, jsonObj cp.2)))))),
    trained_at := s.trained_at }

/-- What `open` + `json.load` yields for the preferences file: the file is
absent (`FileNotFoundError`), not valid JSON (`JSONDecodeError`), or a parsed
document of the snapshot schema (`data.get` tolerates missing keys, folded
into `Option` fields; JSON documents outside this schema are not modelled). -/
inductive FileContent where
  | absent
  | invalid
  | doc (preferences :
          Option (List (String × List (String × List (String × ℚ)))))
        (confidence :
          Option (List (String × List (String × List (String × ℤ)))))

/-- The in-memory tables built from a parsed document: all value keys are
JSON strings. -/
def tableOfJson (t : List (String × List (String × List (String × α)))) :
    List (String × List (String × List (PVal × α))) :=
  t.map (fun tp => (tp.1, tp.2.map (fun cp =>
    (cp.1, cp.2.map (fun vp => (PVal.pstr vp.1, vp.2))))))

/-- Model of `PreferenceModel.load_preferences`: on `FileNotFoundError` or
`JSONDecodeError` return `false` leaving the tables untouched; otherwise
replace both tables wholesale with the document's (`data.get(…, {})`) and
return `true`. -/
def load_preferences (m : Model) (fc : FileContent) : Model × Bool :=
  match fc with
  | .absent => (m, false)
  | .invalid => (m, false)
  | .doc prefs confs =>
    ({ preferences := tableOfJson (prefs.getD []),
       confidence := tableOfJson (confs.getD []) }, true)

/-- Model of `save_preferences` into a path followed by `load_preferences` from that
path on a fresh engine instance (a successful write; the file then parses to
the written document). -/
def roundTrip (m : Model) (filepath trained_at : String) : Model × Bool :=
  match save_preferences m filepath trained_at .success with
  | .ok (snap, _) =>
    let parsed := parseSnapshot snap
    load_preferences Model.init (.doc (some parsed.preferences)
      (some parsed.confidence))
  | .error _ => (Model.init, false)

/-! ### Derived notions used by the statements -/

/-- The weight stored for a `(tool, context bucket, value)` triple, if any. -/
def wLookup (m : Model) (tool ck : String) (v : PVal) : Option ℚ :=
  (getSub m.preferences tool ck).bind (fun inner => pGet inner v)

/-- The count stored for a `(tool, context bucket, value)` triple, if any. -/
def cLookup (m : Model) (tool ck : String) (v : PVal) : Option ℤ :=
  (getSub m.confidence tool ck).bind (fun inner => pGet inner v)

/-- The weight sub-dict of one `(tool, context bucket)` (empty if absent),
exactly what `predict` reads. -/
def projW (m : Model) (tool ck : String) : List (PVal × ℚ) :=
  (getSub m.preferences tool ck).getD []

/-- The count sub-dict of one `(tool, context bucket)` (empty if absent). -/
def projC (m : Model) (tool ck : String) : List (PVal × ℤ) :=
  (getSub m.confidence tool ck).getD []

/-- Two model states agree on everything a prediction under context bucket
`ck` can read. -/
def Agree (ck : String) (m1 m2 : Model) : Prop :=
  ∀ tool, projW m1 tool ck = projW m2 tool ck ∧ projC m1 tool ck = projC m2 tool ck

/-- The temperature family of `_learn_from_correction` in isolation: it
consults only its own pattern. -/
def applyTempFam (now : ℤ) (correction : String) (ctx : Context)
    (p : Model × Stats) : Model × Stats :=
  match extractTemp correction with
  | some t =>
    (p.1.bump "set_temperature" (get_context_key now ctx) (.pfloat t) 2,
     p.2.bump "set_temperature")
  | none => p

/-- The brightness family of `_learn_from_correction` in isolation. -/
def applyBrightFam (now : ℤ) (correction : String) (ctx : Context)
    (p : Model × Stats) : Model × Stats :=
  match extractBrightness correction with
  | some b =>
    (p.1.bump "set_light_brightness" (get_context_key now ctx) (.pint b) 2,
     p.2.bump "set_light_brightness")
  | none => p

/-- The fan-speed family of `_learn_from_correction` in isolation. -/
def applySpeedFam (now : ℤ) (correction : String) (ctx : Context)
    (p : Model × Stats) : Model × Stats :=
  match extractSpeed correction with
  | some sp =>
    (p.1.bump "set_fan_speed" (get_context_key now ctx) (.pint sp) 2,
     p.2.bump "set_fan_speed")
  | none => p

/-- How many of the three pattern families match a correction string. -/
def matchCount (correction : String) : ℤ :=
  (if (extractTemp correction).isSome then 1 else 0)
    + (if (extractBrightness correction).isSome then 1 else 0)
    + (if (extractSpeed correction).isSome then 1 else 0)

/-- Pointwise relation between one weight sub-dict and one count sub-dict:
same value keys in the same order, every count at least `1`, and
`count ≤ weight ≤ 2·count`. -/
def InnerOk : List (PVal × ℚ) → List (PVal × ℤ) → Prop :=
  List.Forall₂ (fun wp cp =>
    wp.1 = cp.1 ∧ 1 ≤ cp.2 ∧ (cp.2 : ℚ) ≤ wp.2 ∧ wp.2 ≤ 2 * (cp.2 : ℚ))

/-- Same-shape relation one level up (context buckets). -/
def MidOk : List (String × List (PVal × ℚ)) → List (String × List (PVal × ℤ)) →
    Prop :=
  List.Forall₂ (fun wm cm => wm.1 = cm.1 ∧ InnerOk wm.2 cm.2)

/-- Same-shape relation between the two whole tables. -/
def TopOk (w : WTable) (c : CTable) : Prop :=
  List.Forall₂ (fun wt ct => wt.1 = ct.1 ∧ MidOk wt.2 ct.2) w c

/-- Sum of the counts of one value sub-dict. -/
def innerSum (l : List (PVal × ℤ)) : ℤ := (l.map Prod.snd).sum

/-- Sum of all counts of one tool's sub-table. -/
def midSum (l : List (String × List (PVal × ℤ))) : ℤ :=
  (l.map (fun p => innerSum p.2)).sum

/-- Sum of all counts in the confidence table. -/
def topSum (t : CTable) : ℤ := (t.map (fun p => midSum p.2)).sum

/-- The invariant maintained while `train` folds over the feedback rows:
the two tables stay aligned (same keys, `count ≤ weight ≤ 2·count`,
counts ≥ 1) and `preferences_learned` equals the total count. -/
def TrainInv (p : Model × Stats) : Prop :=
  TopOk p.1.preferences p.1.confidence ∧
    p.2.preferences_learned = topSum p.1.confidence

/-- A table whose every numeric value key has been replaced by its JSON
string form (what a persistence round trip produces). -/
def strKeyTable (t : List (String × List (String × List (PVal × α)))) :
    List (String × List (String × List (PVal × α))) :=
  t.map (fun tp => (tp.1, tp.2.map (fun cp =>
    (cp.1, cp.2.map (fun vp => (PVal.pstr (jsonKeyStr vp.1), vp.2))))))

/-- All dict key lists of a table are duplicate-free, the value keys even
after JSON stringification (true of every table the program builds, where
each dict has pairwise `!=` keys and no two value keys of a bucket share a
string form). -/
def TableKeysOk (t : List (String × List (String × List (PVal × α)))) : Prop :=
  (t.map Prod.fst).Nodup ∧
    ∀ p ∈ t, (p.2.map Prod.fst).Nodup ∧
      ∀ q ∈ p.2, (q.2.map (fun vp => jsonKeyStr vp.1)).Nodup

instance (t : List (String × List (String × List (PVal × α)))) :
    Decidable (TableKeysOk t) := by
  unfold TableKeysOk
  infer_instance

/-! ### Concrete fixtures for witnesses and counterexamples -/

/-- Evening-weekday context (`time_of_day = 19`, Monday). -/
def ctx19 : Context := ⟨some 19, 0⟩

/-- Morning-weekday context (`time_of_day = 9`, Monday). -/
def ctx9 : Context := ⟨some 9, 0⟩

/-- The agent's proposed arguments: `temp = 26`. -/
def args26 : List (String × PVal) :=
  [("device_id", .pstr "thermostat"), ("temp", .pint 26)]

/-- A logged correction row: feedback `-1`, corrected command `应该是24度`,
in the evening-weekday context. -/
def row24 : Row :=
  { agent_action := some ⟨some [⟨some "set_temperature", args26⟩]⟩,
    context := some ctx19,
    user_feedback := some (-1),
    corrected_command := some "应该是24度" }

/-- A store holding one such correction. -/
def store1 : Store := ⟨.ok [row24]⟩

/-- A store holding two identical such corrections. -/
def store2 : Store := ⟨.ok [row24, row24]⟩

/-- The tables after training on `store1` (one correction). -/
def M1 : Model :=
  { preferences := [("set_temperature", [("evening_weekday", [(.pfloat 24, 2)])])],
    confidence := [("set_temperature", [("evening_weekday", [(.pfloat 24, 1)])])] }

/-- The tables after training on `store2` (two corrections). -/
def M2 : Model :=
  { preferences := [("set_temperature", [("evening_weekday", [(.pfloat 24, 4)])])],
    confidence := [("set_temperature", [("evening_weekday", [(.pfloat 24, 2)])])] }

/-- The statistics of training on `store2`. -/
def S2 : TrainStats :=
  { total_interactions := 2, preferences_learned := 2,
    tools_updated := ["set_temperature"] }

/-! ## Theorems -/

theorem ratAdd_eq_add (a b : ℚ) : ratAdd a b = a + b := by
  rw [Rat.add_def, Rat.normalize_eq_mkRat]
  rfl

theorem predict_fst (now : ℤ) (m : Model) (tool : String)
    (args : List (String × PVal)) (ctx : Context) :
    (predict now m tool args ctx).1 = m := by
  unfold predict
  dsimp only
  repeat' split <;> try rfl

theorem adjust_fst (now : ℤ) (m : Model) (tool : String)
    (args : List (String × PVal)) (ctx : Context) :
    (adjust_arguments now m tool args ctx).1 = m := by
  unfold adjust_arguments
  cases h : (predict now m tool args ctx).2 <;>
    simp only [h] <;> exact predict_fst now m tool args ctx

/-- C7: for every tool, arguments and context, `predict` and
`adjust_arguments` leave the weight and confidence tables exactly as they
were: every table access they perform is a non-inserting `get`, so the
threaded state comes back unchanged. -/
theorem c7_predict_adjust_no_mutation :
    ∀ (now : ℤ) (m : Model) (tool : String) (args : List (String × PVal))
      (ctx : Context),
      (predict now m tool args ctx).1 = m ∧
      (adjust_arguments now m tool args ctx).1 = m :=
  fun now m tool args ctx =>
    ⟨predict_fst now m tool args ctx, adjust_fst now m tool args ctx⟩

/-- C9: `load_preferences` returns `false` without raising when the file is
absent or its contents are not parseable JSON, leaving both tables untouched;
on success it replaces both tables wholesale with the document's contents and
returns `true`. -/
theorem c9_load_failure_semantics :
    ∀ (m : Model),
      load_preferences m .absent = (m, false) ∧
      load_preferences m .invalid = (m, false) ∧
      ∀ prefs confs,
        load_preferences m (.doc prefs confs) =
          ({ preferences := tableOfJson (prefs.getD []),
             confidence := tableOfJson (confs.getD []) }, true) :=
  fun _ => ⟨rfl, rfl, fun _ _ => rfl⟩

/-- C3 counterexample: `save_preferences` has no `try`/`except`, so an I/O
error while writing is not caught and not turned into a failure return
value — the exception propagates (modelled as `Except.error`). -/
theorem c3_counterexample :
    save_preferences Model.init "preferences.json" "2026-01-01T00:00:00"
        (.ioError "disk full") = .error "disk full" := rfl

/-- C3 amended: an I/O error during `save_preferences` propagates to the
caller as the raised exception; only a successful write returns normally,
yielding the written snapshot and the filepath. -/
theorem c3_amended_save_propagates :
    ∀ (m : Model) (fp tA e : String),
      save_preferences m fp tA (.ioError e) = .error e ∧
      save_preferences m fp tA .success =
        .ok ({ preferences := dumpTable m.preferences,
               confidence := dumpTable m.confidence,
               trained_at := tA }, fp) :=
  fun _ _ _ _ => ⟨rfl, rfl⟩

/-- C5 counterexample: `train` clears both tables before opening the store,
so when the store is unavailable the tables are *not* left at their previous
contents — a model holding `M1`'s tables comes back empty. -/
theorem c5_counterexample :
    (train 0 ⟨.error "unable to open database file"⟩ M1).1 = Model.init ∧
    (train 0 ⟨.error "unable to open database file"⟩ M1).1 ≠ M1 ∧
    (train 0 ⟨.error "unable to open database file"⟩ M1).2 =
      .error "Database error during training: unable to open database file" :=
  ⟨rfl, by decide, rfl⟩

/-- C5 amended: if the store cannot be accessed, `train` returns an error
result rather than raising, but both in-memory tables have already been
cleared at the start of the call, so they are left empty — not at their
pre-call contents. -/
theorem c5_amended_error_clears :
    ∀ (now : ℤ) (store : Store) (m : Model) (e : String),
      store.db = .error e →
      train now store m =
        (Model.init, .error ("Database error during training: " ++ e)) := by
  intro now store m e h
  unfold train
  rw [h]
  rfl

theorem c5_amended_error_clears_witness :
    (⟨.error "db locked"⟩ : Store).db = .error "db locked" ∧
    train 0 ⟨.error "db locked"⟩ M1 =
      (Model.init, .error ("Database error during training: " ++ "db locked")) :=
  ⟨rfl, c5_amended_error_clears 0 ⟨.error "db locked"⟩ M1 "db locked" rfl⟩

theorem get_context_key_now (n1 n2 : ℤ) (ctx : Context)
    (h : ctx.time_of_day.isSome) :
    get_context_key n1 ctx = get_context_key n2 ctx := by
  obtain ⟨x, hx⟩ := Option.isSome_iff_exists.mp h
  unfold get_context_key get_time_period
  rw [hx]
  rfl

theorem lfc_now (n1 n2 : ℤ) (m : Model) (corr : String) (ctx : Context)
    (s : Stats) (h : ctx.time_of_day.isSome) :
    learn_from_correction n1 m corr ctx s =
      learn_from_correction n2 m corr ctx s := by
  have hk := get_context_key_now n1 n2 ctx h
  simp only [learn_from_correction, hk]

theorem reinforce_step_now (n1 n2 : ℤ) (ctx : Context) (p : Model × Stats)
    (act : ActionCall) (h : ctx.time_of_day.isSome) :
    reinforce_step n1 ctx p act = reinforce_step n2 ctx p act := by
  have hk := get_context_key_now n1 n2 ctx h
  simp only [reinforce_step, hk]

theorem reinforce_now (n1 n2 : ℤ) (m : Model) (aa : AgentAction)
    (ctx : Context) (s : Stats) (h : ctx.time_of_day.isSome) :
    reinforce_action n1 m aa ctx s = reinforce_action n2 m aa ctx s := by
  unfold reinforce_action
  cases aa.actions with
  | none => rfl
  | some acts =>
    exact List.foldl_ext (reinforce_step n1 ctx) (reinforce_step n2 ctx) (m, s)
      (fun p act _ => reinforce_step_now n1 n2 ctx p act h)

theorem lfi_now (n1 n2 : ℤ) (m : Model) (row : Row) (s : Stats)
    (h : ∀ c, row.context = some c → c.time_of_day.isSome) :
    learn_from_interaction n1 m row s = learn_from_interaction n2 m row s := by
  cases haa : row.agent_action <;> cases hctx : row.context <;>
    simp only [learn_from_interaction, haa, hctx]
  cases hf : row.user_feedback <;> simp only
  split
  · split
    · exact lfc_now n1 n2 m _ _ s (h _ hctx)
    · rfl
  · split
    · exact reinforce_now n1 n2 m _ _ s (h _ hctx)
    · rfl

theorem foldl_lfi_now (n1 n2 : ℤ) :
    ∀ (l : List Row) (p : Model × Stats),
      (∀ r ∈ l, ∀ c, r.context = some c → c.time_of_day.isSome) →
      l.foldl (fun q r => learn_from_interaction n1 q.1 r q.2) p =
        l.foldl (fun q r => learn_from_interaction n2 q.1 r q.2) p := by
  intro l
  induction l with
  | nil => intro p _; rfl
  | cons r rest ih =>
    intro p h
    simp only [List.foldl_cons]
    rw [lfi_now n1 n2 p.1 r p.2 (h r (by simp))]
    exact ih _ (fun r' hr' => h r' (by simp [hr']))

theorem train_now_indep (n1 n2 : ℤ) (rows : List Row) (m m' : Model)
    (h : ∀ r ∈ rows, ∀ c, r.context = some c → c.time_of_day.isSome) :
    train n1 ⟨.ok rows⟩ m = train n2 ⟨.ok rows⟩ m' := by
  unfold train
  dsimp only
  rw [foldl_lfi_now n1 n2 _ _
    (fun r hr => h r (List.mem_of_mem_filter hr))]

/-- C4: training is a deterministic full rebuild: its result does not depend
on the previous in-memory tables, so running `train()` twice on an unchanged
store yields identical weight and confidence tables (stated for any two call
times, with the proviso that every record's context carries its hour, since a
record without `time_of_day` would be bucketed by the wall clock). -/
theorem c4_train_idempotent :
    (∀ (now : ℤ) (store : Store) (m m' : Model),
       train now store m = train now store m') ∧
    (∀ (n1 n2 : ℤ) (rows : List Row) (m : Model),
       (∀ r ∈ rows, ∀ c, r.context = some c → c.time_of_day.isSome) →
       train n2 ⟨.ok rows⟩ ((train n1 ⟨.ok rows⟩ m).1) =
         train n1 ⟨.ok rows⟩ m) ∧
    (∀ (n1 n2 : ℤ) (e : String) (m : Model),
       train n2 ⟨.error e⟩ ((train n1 ⟨.error e⟩ m).1) =
         train n1 ⟨.error e⟩ m) :=
  ⟨fun _ _ _ _ => rfl,
   fun n1 n2 rows m h => train_now_indep n2 n1 rows _ m h,
   fun _ _ _ _ => rfl⟩

theorem c4_train_idempotent_witness :
    (∀ r ∈ [row24, row24], ∀ c, r.context = some c → c.time_of_day.isSome) ∧
    train 11 ⟨.ok [row24, row24]⟩ ((train 3 ⟨.ok [row24, row24]⟩ Model.init).1) =
      train 3 ⟨.ok [row24, row24]⟩ Model.init :=
  ⟨by decide,
   c4_train_idempotent.2.1 3 11 [row24, row24] Model.init (by decide)⟩

theorem bestOf_acc_le :
    ∀ (l : List (PVal × ℤ)) (acc : PVal × ℤ),
      acc.2 ≤ (l.foldl
        (fun a p => if p.2 > a.2 then (p.1, p.2) else a) acc).2 := by
  intro l
  induction l with
  | nil => intro acc; exact le_refl _
  | cons p rest ih =>
    intro acc
    simp only [List.foldl_cons]
    by_cases h : p.2 > acc.2
    · exact le_trans (le_of_lt h) (by simpa [h] using ih (p.1, p.2))
    · simpa [h] using ih acc

theorem bestOf_mem_le_aux :
    ∀ (l : List (PVal × ℤ)) (acc : PVal × ℤ) (q : PVal × ℤ), q ∈ l →
      q.2 ≤ (l.foldl
        (fun a p => if p.2 > a.2 then (p.1, p.2) else a) acc).2 := by
  intro l
  induction l with
  | nil => intro acc q hq; cases hq
  | cons p rest ih =>
    intro acc q hq
    simp only [List.foldl_cons]
    rcases List.mem_cons.mp hq with hq | hq
    · subst hq
      by_cases h : q.2 > acc.2
      · simpa [h] using bestOf_acc_le rest (q.1, q.2)
      · exact le_trans (not_lt.mp h) (by simpa [h] using bestOf_acc_le rest acc)
    · exact ih _ q hq

theorem bestOf_mem_le (l : List (PVal × ℤ)) (q : PVal × ℤ) (hq : q ∈ l) :
    q.2 ≤ (bestOf l).2 :=
  bestOf_mem_le_aux l (.pnone, 0) q hq

theorem predict_spec (now : ℤ) (m : Model) (tool : String)
    (args : List (String × PVal)) (ctx : Context) (pn : String) (cur : PVal)
    (h1 : sGet LEARNABLE_PARAMS tool = some pn)
    (h2 : sGet args pn = some cur)
    (h3 : projC m tool (get_context_key now ctx) ≠ [] →
          projW m tool (get_context_key now ctx) ≠ []) :
    (predict now m tool args ctx).2 =
      if (bestOf (projC m tool (get_context_key now ctx))).2 ≥ min_confidence ∧
         pyEq (bestOf (projC m tool (get_context_key now ctx))).1 cur = false
      then some { parameter := pn, original_value := cur,
                  suggested_value :=
                    (bestOf (projC m tool (get_context_key now ctx))).1,
                  confidence :=
                    (bestOf (projC m tool (get_context_key now ctx))).2,
                  context := get_context_key now ctx }
      else none := by
  simp only [projC, projW] at h3 ⊢
  simp only [predict, h1, h2]
  by_cases hc : (getSub m.confidence tool (get_context_key now ctx)).getD [] = []
  · simp [hc, bestOf, min_confidence]
  · have hpe : (((getSub m.preferences tool (get_context_key now ctx)).getD
        []).isEmpty ||
        ((getSub m.confidence tool (get_context_key now ctx)).getD
          []).isEmpty) = false := by
      simp [List.isEmpty_iff, hc, h3 hc]
    rw [hpe]
    simp only [Bool.false_eq_true, if_false]
    split <;> rfl

/-- C2: for every learnable tool, argument set containing that tool's
parameter, and context, `predict` returns a `Prediction` exactly when the
highest count in the bucket's confidence sub-dict is at least
`min_confidence = 2` and the value holding it (the first such value in dict
order) differs from the proposal under Python `==`; otherwise it returns
none.  The hypothesis that a non-empty confidence sub-dict comes with a
non-empty weight sub-dict holds of every state built by training or loading,
which update both tables in lockstep.  Concretely: after one correction for
`(set_temperature, evening_weekday, 24)` `predict` returns none, after a
second identical correction it returns a `Prediction` suggesting `24`. -/
theorem c2_confidence_gate :
    (∀ (now : ℤ) (m : Model) (tool : String) (args : List (String × PVal))
       (ctx : Context) (pn : String) (cur : PVal),
       sGet LEARNABLE_PARAMS tool = some pn →
       sGet args pn = some cur →
       (projC m tool (get_context_key now ctx) ≠ [] →
         projW m tool (get_context_key now ctx) ≠ []) →
       (predict now m tool args ctx).2 =
         if (bestOf (projC m tool (get_context_key now ctx))).2 ≥
              min_confidence ∧
            pyEq (bestOf (projC m tool (get_context_key now ctx))).1 cur =
              false
         then some { parameter := pn, original_value := cur,
                     suggested_value :=
                       (bestOf (projC m tool (get_context_key now ctx))).1,
                     confidence :=
                       (bestOf (projC m tool (get_context_key now ctx))).2,
                     context := get_context_key now ctx }
         else none) ∧
    (∀ (confs : List (PVal × ℤ)) (q : PVal × ℤ), q ∈ confs →
       q.2 ≤ (bestOf confs).2) ∧
    (predict 0 (train 0 store1 Model.init).1 "set_temperature" args26
        ctx19).2 = none ∧
    (predict 0 (train 0 store2 Model.init).1 "set_temperature" args26
        ctx19).2 =
      some { parameter := "temp", original_value := .pint 26,
             suggested_value := .pfloat 24, confidence := 2,
             context := "evening_weekday" } :=
  ⟨predict_spec, bestOf_mem_le, by decide, by decide⟩

theorem c2_confidence_gate_witness :
    (predict 0 M2 "set_temperature" args26 ctx19).2 =
      if (bestOf (projC M2 "set_temperature" (get_context_key 0 ctx19))).2 ≥
           min_confidence ∧
         pyEq (bestOf (projC M2 "set_temperature" (get_context_key 0 ctx19))).1
           (.pint 26) = false
      then some { parameter := "temp", original_value := .pint 26,
                  suggested_value :=
                    (bestOf (projC M2 "set_temperature"
                      (get_context_key 0 ctx19))).1,
                  confidence :=
                    (bestOf (projC M2 "set_temperature"
                      (get_context_key 0 ctx19))).2,
                  context := get_context_key 0 ctx19 }
      else none :=
  c2_confidence_gate.1 0 M2 "set_temperature" args26 ctx19 "temp" (.pint 26)
    rfl rfl (fun _ => by decide)

/-- C8: during training of a `feedback = -1` record, the three pattern
families are matched independently: `_learn_from_correction` is the
composition of three per-family passes each consulting only its own pattern;
a string matching no family leaves the tables and stats unchanged;
`preferences_learned` grows by exactly the number of matching families (one
event per matching family); `"不对"` matches no family; and a single string
(`"24度50%"`) can yield events for several tools at once. -/
theorem c8_pattern_families :
    (∀ (now : ℤ) (m : Model) (corr : String) (ctx : Context) (stats : Stats),
       learn_from_correction now m corr ctx stats =
         applySpeedFam now corr ctx
           (applyBrightFam now corr ctx
             (applyTempFam now corr ctx (m, stats)))) ∧
    (∀ (now : ℤ) (m : Model) (corr : String) (ctx : Context) (stats : Stats),
       extractTemp corr = none → extractBrightness corr = none →
       extractSpeed corr = none →
       learn_from_correction now m corr ctx stats = (m, stats)) ∧
    (∀ (now : ℤ) (m : Model) (corr : String) (ctx : Context) (stats : Stats),
       (learn_from_correction now m corr ctx stats).2.preferences_learned =
         stats.preferences_learned + matchCount corr) ∧
    extractTemp "不对" = none ∧
    extractBrightness "不对" = none ∧
    extractSpeed "不对" = none ∧
    learn_from_correction 0 Model.init "24度50%" ctx19 ⟨0, []⟩ =
      ({ preferences :=
           [("set_temperature", [("evening_weekday", [(.pfloat 24, 2)])]),
            ("set_light_brightness", [("evening_weekday", [(.pint 50, 2)])])],
         confidence :=
           [("set_temperature", [("evening_weekday", [(.pfloat 24, 1)])]),
            ("set_light_brightness", [("evening_weekday", [(.pint 50, 1)])])] },
       { preferences_learned := 2,
         tools_updated := ["set_temperature", "set_light_brightness"] }) := by
  refine ⟨fun _ _ _ _ _ => rfl, ?_, ?_, rfl, rfl, rfl, by decide⟩
  · intro now m corr ctx stats h1 h2 h3
    simp only [learn_from_correction, h1, h2, h3]
  · intro now m corr ctx stats
    rcases h1 : extractTemp corr with _ | t <;>
      rcases h2 : extractBrightness corr with _ | b <;>
        rcases h3 : extractSpeed corr with _ | sp <;>
          simp [learn_from_correction, matchCount, Stats.bump, h1, h2, h3] <;>
            ring

theorem c8_pattern_families_witness :
    extractTemp "不对" = none ∧ extractBrightness "不对" = none ∧
    extractSpeed "不对" = none ∧
    learn_from_correction 7 M1 "不对" ctx9 ⟨5, ["set_fan_speed"]⟩ =
      (M1, ⟨5, ["set_fan_speed"]⟩) :=
  ⟨rfl, rfl, rfl,
   c8_pattern_families.2.1 7 M1 "不对" ctx9 ⟨5, ["set_fan_speed"]⟩ rfl rfl rfl⟩

theorem aSet_append (k : String) (v : α) :
    ∀ (acc : List (String × α)), (∀ p ∈ acc, p.1 ≠ k) →
      aSet strEq acc k v = acc ++ [(k, v)] := by
  intro acc
  induction acc with
  | nil => intro _; rfl
  | cons hd tl ih =>
    intro h
    obtain ⟨k', v'⟩ := hd
    have hne : strEq k' k = false := by
      simp only [strEq, beq_eq_false_iff_ne, ne_eq]
      exact h (k', v') (List.mem_cons_self _ _)
    simp only [aSet, aBump, hne, Bool.false_eq_true, if_false, List.cons_append]
    have := ih (fun p hp => h p (List.mem_cons_of_mem _ hp))
    simpa [aSet] using this

theorem foldl_aSet_nodup :
    ∀ (l acc : List (String × α)),
      ((acc ++ l).map Prod.fst).Nodup →
      l.foldl (fun a p => aSet strEq a p.1 p.2) acc = acc ++ l := by
  intro l
  induction l with
  | nil => intro acc _; simp
  | cons hd tl ih =>
    intro acc h
    have hnotin : ∀ p ∈ acc, p.1 ≠ hd.1 := by
      intro p hp hpk
      rw [List.map_append, List.nodup_append] at h
      exact h.2.2 (List.mem_map_of_mem Prod.fst hp) (by simp [hpk])
    simp only [List.foldl_cons]
    rw [aSet_append hd.1 hd.2 acc hnotin]
    have := ih (acc ++ [hd]) (by simpa [List.append_assoc] using h)
    simpa [List.append_assoc] using this

theorem jsonObj_id (l : List (String × α)) (h : (l.map Prod.fst).Nodup) :
    jsonObj l = l := by
  have := foldl_aSet_nodup l [] (by simpa using h)
  simpa [jsonObj] using this

theorem tableOfJson_dumpTable
    (t : List (String × List (String × List (PVal × α)))) :
    tableOfJson (dumpTable t) = strKeyTable t := by
  simp [tableOfJson, dumpTable, strKeyTable, List.map_map, Function.comp_def]

theorem parse_dump (t : List (String × List (String × List (PVal × α))))
    (h : TableKeysOk t) :
    jsonObj ((dumpTable t).map (fun tp =>
      (tp.1, jsonObj (tp.2.map (fun cp => (cp.1, jsonObj cp.2)))))) =
      dumpTable t := by
  obtain ⟨htop, hrest⟩ := h
  have hmap : (dumpTable t).map (fun tp =>
      (tp.1, jsonObj (tp.2.map (fun cp => (cp.1, jsonObj cp.2))))) =
      dumpTable t := by
    conv_rhs => rw [← List.map_id (dumpTable t)]
    apply List.map_congr_left
    intro tp htp
    simp only [dumpTable, List.mem_map] at htp
    obtain ⟨tp0, htp0, rfl⟩ := htp
    obtain ⟨hmidnodup, hinner⟩ := hrest tp0 htp0
    simp only [id_eq]
    congr 1
    rw [List.map_map]
    simp only [Function.comp_def]
    have h2 : tp0.2.map (fun cp =>
        (cp.1, jsonObj (cp.2.map (fun vp => (jsonKeyStr vp.1, vp.2))))) =
        tp0.2.map (fun cp =>
          (cp.1, cp.2.map (fun vp => (jsonKeyStr vp.1, vp.2)))) := by
      apply List.map_congr_left
      intro cp hcp
      congr 1
      apply jsonObj_id
      rw [List.map_map]
      simpa [Function.comp_def] using hinner cp hcp
    rw [h2]
    apply jsonObj_id
    rw [List.map_map]
    simpa [Function.comp_def] using hmidnodup
  rw [hmap]
  apply jsonObj_id
  simpa [dumpTable, List.map_map, Function.comp_def] using htop

/-- C1 counterexample: `json.dump` stringifies numeric dict keys, so the
round trip does *not* reproduce the same `(tool, bucket, value)` keys.  On
the trained state `M2` (reached by `train` on two corrections) the saved
confidence table maps `(set_temperature, evening_weekday, 24.0)` to `2`, but
after `save` + `load` into a fresh engine that numeric key is gone — only the
string key `"24.0"` remains — so `predict`-visible equivalence of the tables
fails. -/
theorem c1_counterexample :
    (train 0 store2 Model.init).1 = M2 ∧
    (roundTrip M2 "preferences.json" "t").2 = true ∧
    cLookup M2 "set_temperature" "evening_weekday" (.pfloat 24) = some 2 ∧
    wLookup M2 "set_temperature" "evening_weekday" (.pfloat 24) = some 4 ∧
    cLookup (roundTrip M2 "preferences.json" "t").1 "set_temperature"
      "evening_weekday" (.pfloat 24) = none ∧
    cLookup (roundTrip M2 "preferences.json" "t").1 "set_temperature"
      "evening_weekday" (.pint 24) = none ∧
    wLookup (roundTrip M2 "preferences.json" "t").1 "set_temperature"
      "evening_weekday" (.pfloat 24) = none ∧
    cLookup (roundTrip M2 "preferences.json" "t").1 "set_temperature"
      "evening_weekday" (.pstr "24.0") = some 2 :=
  ⟨rfl, rfl, by decide, by decide, by decide, by decide, by decide, by decide⟩

/-- C1 amended: `save` followed by `load` into a fresh engine reproduces the
same tool and context-bucket keys and the same numeric weight/count values,
but every value key is replaced by its JSON string form (`24.0` becomes
`"24.0"`): the tables are equivalent only up to this stringification of
value keys (stated for tables whose dict key lists are duplicate-free, as
every dict the program builds is, with no two value keys of one bucket
sharing a string form). -/
theorem c1_amended_roundtrip (m : Model) (fp tA : String)
    (hw : TableKeysOk m.preferences) (hc : TableKeysOk m.confidence) :
    roundTrip m fp tA =
      ({ preferences := strKeyTable m.preferences,
         confidence := strKeyTable m.confidence }, true) := by
  show load_preferences Model.init
    (.doc (some (parseSnapshot _).preferences)
          (some (parseSnapshot _).confidence)) = _
  simp only [parseSnapshot, load_preferences, Option.getD_some]
  rw [parse_dump m.preferences hw, parse_dump m.confidence hc,
    tableOfJson_dumpTable, tableOfJson_dumpTable]

theorem c1_amended_roundtrip_witness :
    TableKeysOk M2.preferences ∧ TableKeysOk M2.confidence ∧
    roundTrip M2 "preferences.json" "t" =
      ({ preferences := strKeyTable M2.preferences,
         confidence := strKeyTable M2.confidence }, true) :=
  ⟨by decide, by decide,
   c1_amended_roundtrip M2 "preferences.json" "t" (by decide) (by decide)⟩

theorem aGet_nil (eq : κ → κ → Bool) (k : κ) :
    aGet eq ([] : List (κ × α)) k = none := rfl

theorem aGet_cons (eq : κ → κ → Bool) (k' : κ) (v' : α) (tl : List (κ × α))
    (k : κ) :
    aGet eq ((k', v') :: tl) k = if eq k' k then some v' else aGet eq tl k := by
  unfold aGet
  rw [List.find?_cons]
  by_cases h : eq k' k <;> simp [h]

theorem aGet_aBump_self (eq : κ → κ → Bool) :
    ∀ (l : List (κ × α)) (k : κ) (d0 : α) (f : α → α), eq k k = true →
      aGet eq (aBump eq l k d0 f) k = some (f ((aGet eq l k).getD d0)) := by
  intro l
  induction l with
  | nil => intro k d0 f href; simp [aBump, aGet_cons, href, aGet_nil]
  | cons hd tl ih =>
    intro k d0 f href
    obtain ⟨k', v'⟩ := hd
    by_cases h : eq k' k
    · simp [aBump, h, aGet_cons]
    · simp [aBump, h, aGet_cons, ih k d0 f href]

theorem aGet_aBump_other (eq : κ → κ → Bool) :
    ∀ (l : List (κ × α)) (k : κ) (d0 : α) (f : α → α) (k2 : κ),
      eq k k = true → (∀ a, eq a k = true → eq a k2 = false) →
      aGet eq (aBump eq l k d0 f) k2 = aGet eq l k2 := by
  intro l
  induction l with
  | nil =>
    intro k d0 f k2 href hdisj
    simp [aBump, aGet_cons, hdisj k href, aGet_nil]
  | cons hd tl ih =>
    intro k d0 f k2 href hdisj
    obtain ⟨k', v'⟩ := hd
    by_cases h : eq k' k
    · simp [aBump, h, aGet_cons, hdisj k' h]
    · simp [aBump, h, aGet_cons, ih k d0 f k2 href hdisj]

theorem getSub_getD (t : List (String × List (String × α))) (tool ck : String) :
    getSub t tool ck = aGet strEq ((aGet strEq t tool).getD []) ck := by
  unfold getSub sGet
  cases aGet strEq t tool <;> simp [aGet_nil]

theorem strEq_refl (s : String) : strEq s s = true := by simp [strEq]

theorem strEq_disj (k k2 : String) (h : k ≠ k2) :
    ∀ a, strEq a k = true → strEq a k2 = false := by
  intro a ha
  simp only [strEq, beq_iff_eq] at ha
  subst ha
  simp only [strEq, beq_eq_false_iff_ne, ne_eq]
  exact h

theorem projW_bump (m : Model) (tool ck : String) (v : PVal) (inc : ℚ)
    (tool' ck' : String) :
    projW (m.bump tool ck v inc) tool' ck' =
      if tool = tool' ∧ ck = ck' then
        aBump pyEq (projW m tool' ck') v 0 (fun w => ratAdd w inc)
      else projW m tool' ck' := by
  unfold projW Model.bump wBump
  rw [getSub_getD, getSub_getD]
  by_cases ht : tool = tool'
  · subst ht
    rw [aGet_aBump_self strEq m.preferences tool [] _ (strEq_refl tool)]
    simp only [Option.getD_some]
    by_cases hc : ck = ck'
    · subst hc
      rw [aGet_aBump_self strEq _ ck [] _ (strEq_refl ck)]
      rw [if_pos (by simp)]
      simp
    · rw [aGet_aBump_other strEq _ ck [] _ ck' (strEq_refl ck)
        (strEq_disj ck ck' hc)]
      rw [if_neg (fun hcontra => hc hcontra.2)]
  · rw [aGet_aBump_other strEq m.preferences tool [] _ tool' (strEq_refl tool)
      (strEq_disj tool tool' ht)]
    rw [if_neg (fun hcontra => ht hcontra.1)]

theorem projC_bump (m : Model) (tool ck : String) (v : PVal) (inc : ℚ)
    (tool' ck' : String) :
    projC (m.bump tool ck v inc) tool' ck' =
      if tool = tool' ∧ ck = ck' then
        aBump pyEq (projC m tool' ck') v 0 (fun c => c + 1)
      else projC m tool' ck' := by
  unfold projC Model.bump cBump
  rw [getSub_getD, getSub_getD]
  by_cases ht : tool = tool'
  · subst ht
    rw [aGet_aBump_self strEq m.confidence tool [] _ (strEq_refl tool)]
    simp only [Option.getD_some]
    by_cases hc : ck = ck'
    · subst hc
      rw [aGet_aBump_self strEq _ ck [] _ (strEq_refl ck)]
      rw [if_pos (by simp)]
      simp
    · rw [aGet_aBump_other strEq _ ck [] _ ck' (strEq_refl ck)
        (strEq_disj ck ck' hc)]
      rw [if_neg (fun hcontra => hc hcontra.2)]
  · rw [aGet_aBump_other strEq m.confidence tool [] _ tool' (strEq_refl tool)
      (strEq_disj tool tool' ht)]
    rw [if_neg (fun hcontra => ht hcontra.1)]

theorem agree_refl (ck : String) (m : Model) : Agree ck m m :=
  fun _ => ⟨rfl, rfl⟩

theorem bump_agree (ck : String) (m1 m2 : Model) (tool ck' : String)
    (v : PVal) (inc : ℚ) (h : Agree ck m1 m2) :
    Agree ck (m1.bump tool ck' v inc) (m2.bump tool ck' v inc) := by
  intro t
  constructor
  · rw [projW_bump, projW_bump, (h t).1]
  · rw [projC_bump, projC_bump, (h t).2]

theorem bump_skip (ck : String) (m : Model) (tool ck' : String) (v : PVal)
    (inc : ℚ) (h : ck' ≠ ck) :
    Agree ck m (m.bump tool ck' v inc) := by
  intro t
  constructor
  · rw [projW_bump, if_neg (fun hcontra => h hcontra.2)]
  · rw [projC_bump, if_neg (fun hcontra => h hcontra.2)]

theorem agree_symm (ck : String) {a b : Model} (h : Agree ck a b) :
    Agree ck b a :=
  fun t => ⟨((h t).1).symm, ((h t).2).symm⟩

theorem agree_trans (ck : String) {a b c : Model} (h1 : Agree ck a b)
    (h2 : Agree ck b c) : Agree ck a c :=
  fun t => ⟨((h1 t).1).trans ((h2 t).1), ((h1 t).2).trans ((h2 t).2)⟩

theorem lfc_agree (now : ℤ) (ck : String) (m1 m2 : Model) (corr : String)
    (ctx : Context) (s1 s2 : Stats) (h : Agree ck m1 m2) :
    Agree ck (learn_from_correction now m1 corr ctx s1).1
      (learn_from_correction now m2 corr ctx s2).1 := by
  unfold learn_from_correction
  rcases h1 : extractTemp corr with _ | t <;>
    rcases h2 : extractBrightness corr with _ | b <;>
      rcases h3 : extractSpeed corr with _ | sp <;>
        dsimp only <;> (repeat' apply bump_agree) <;> exact h

theorem lfc_skip (now : ℤ) (ck : String) (m : Model) (corr : String)
    (ctx : Context) (s : Stats) (hck : get_context_key now ctx ≠ ck) :
    Agree ck m (learn_from_correction now m corr ctx s).1 := by
  unfold learn_from_correction
  rcases h1 : extractTemp corr with _ | t <;>
    rcases h2 : extractBrightness corr with _ | b <;>
      rcases h3 : extractSpeed corr with _ | sp <;>
        dsimp only <;>
        (repeat' refine agree_trans ck ?_ (bump_skip ck _ _ _ _ _ hck)) <;>
        exact agree_refl ck m

theorem reinforce_step_agree (now : ℤ) (ck : String) (ctx : Context)
    (p1 p2 : Model × Stats) (act : ActionCall) (h : Agree ck p1.1 p2.1) :
    Agree ck (reinforce_step now ctx p1 act).1
      (reinforce_step now ctx p2 act).1 := by
  unfold reinforce_step
  cases act.tool with
  | none => exact h
  | some tn =>
    dsimp only
    cases sGet LEARNABLE_PARAMS tn with
    | none => exact h
    | some pn =>
      dsimp only
      cases sGet act.arguments pn with
      | none => exact h
      | some v => exact bump_agree ck p1.1 p2.1 tn _ v 1 h

theorem reinforce_step_skip (now : ℤ) (ck : String) (ctx : Context)
    (p : Model × Stats) (act : ActionCall)
    (hck : get_context_key now ctx ≠ ck) :
    Agree ck p.1 (reinforce_step now ctx p act).1 := by
  unfold reinforce_step
  cases act.tool with
  | none => exact agree_refl ck p.1
  | some tn =>
    dsimp only
    cases sGet LEARNABLE_PARAMS tn with
    | none => exact agree_refl ck p.1
    | some pn =>
      dsimp only
      cases sGet act.arguments pn with
      | none => exact agree_refl ck p.1
      | some v => exact bump_skip ck p.1 tn _ v 1 hck

theorem reinforce_fold_agree (now : ℤ) (ck : String) (ctx : Context) :
    ∀ (acts : List ActionCall) (p1 p2 : Model × Stats),
      Agree ck p1.1 p2.1 →
      Agree ck ((acts.foldl (reinforce_step now ctx) p1).1)
        ((acts.foldl (reinforce_step now ctx) p2).1) := by
  intro acts
  induction acts with
  | nil => intro p1 p2 h; exact h
  | cons act rest ih =>
    intro p1 p2 h
    simp only [List.foldl_cons]
    exact ih _ _ (reinforce_step_agree now ck ctx p1 p2 act h)

theorem reinforce_fold_skip (now : ℤ) (ck : String) (ctx : Context)
    (hck : get_context_key now ctx ≠ ck) :
    ∀ (acts : List ActionCall) (p : Model × Stats),
      Agree ck p.1 ((acts.foldl (reinforce_step now ctx) p).1) := by
  intro acts
  induction acts with
  | nil => intro p; exact agree_refl ck p.1
  | cons act rest ih =>
    intro p
    simp only [List.foldl_cons]
    exact agree_trans ck (reinforce_step_skip now ck ctx p act hck)
      (ih (reinforce_step now ctx p act))

theorem reinforce_agree (now : ℤ) (ck : String) (m1 m2 : Model)
    (aa : AgentAction) (ctx : Context) (s1 s2 : Stats)
    (h : Agree ck m1 m2) :
    Agree ck (reinforce_action now m1 aa ctx s1).1
      (reinforce_action now m2 aa ctx s2).1 := by
  unfold reinforce_action
  cases aa.actions with
  | none => exact h
  | some acts => exact reinforce_fold_agree now ck ctx acts (m1, s1) (m2, s2) h

theorem reinforce_skip (now : ℤ) (ck : String) (m : Model) (aa : AgentAction)
    (ctx : Context) (s : Stats) (hck : get_context_key now ctx ≠ ck) :
    Agree ck m (reinforce_action now m aa ctx s).1 := by
  unfold reinforce_action
  cases aa.actions with
  | none => exact agree_refl ck m
  | some acts => exact reinforce_fold_skip now ck ctx hck acts (m, s)

theorem lfi_agree (now : ℤ) (ck : String) (m1 m2 : Model) (row : Row)
    (s1 s2 : Stats) (h : Agree ck m1 m2) :
    Agree ck (learn_from_interaction now m1 row s1).1
      (learn_from_interaction now m2 row s2).1 := by
  unfold learn_from_interaction
  cases row.agent_action with
  | none => exact h
  | some aa =>
    cases row.context with
    | none => exact h
    | some ctx =>
      cases row.user_feedback with
      | none => exact h
      | some f =>
        dsimp only
        split
        · split
          · exact lfc_agree now ck m1 m2 _ ctx s1 s2 h
          · exact h
        · split
          · exact reinforce_agree now ck m1 m2 aa ctx s1 s2 h
          · exact h

theorem lfi_skip (now : ℤ) (ck : String) (m : Model) (row : Row) (s : Stats)
    (h : ∀ c, row.context = some c → get_context_key now c ≠ ck) :
    Agree ck m (learn_from_interaction now m row s).1 := by
  unfold learn_from_interaction
  cases row.agent_action with
  | none => exact agree_refl ck m
  | some aa =>
    cases hctx : row.context with
    | none => exact agree_refl ck m
    | some ctx =>
      cases row.user_feedback with
      | none => exact agree_refl ck m
      | some f =>
        dsimp only
        split
        · split
          · exact lfc_skip now ck m _ ctx s (h ctx hctx)
          · exact agree_refl ck m
        · split
          · exact reinforce_skip now ck m aa ctx s (h ctx hctx)
          · exact agree_refl ck m

theorem foldl_lfi_agree (now : ℤ) (ck : String) :
    ∀ (l : List Row) (p1 p2 : Model × Stats), Agree ck p1.1 p2.1 →
      Agree ck
        ((l.foldl (fun p r => learn_from_interaction now p.1 r p.2) p1).1)
        ((l.foldl (fun p r => learn_from_interaction now p.1 r p.2) p2).1) := by
  intro l
  induction l with
  | nil => intro p1 p2 h; exact h
  | cons row rest ih =>
    intro p1 p2 h
    simp only [List.foldl_cons]
    exact ih _ _ (lfi_agree now ck p1.1 p2.1 row p1.2 p2.2 h)

theorem predict_proj (now : ℤ) (mA mB : Model) (tool : String)
    (args : List (String × PVal)) (ctx : Context)
    (h : Agree (get_context_key now ctx) mA mB) :
    (predict now mA tool args ctx).2 = (predict now mB tool args ctx).2 := by
  have hw := (h tool).1
  have hc := (h tool).2
  unfold projW at hw
  unfold projC at hc
  unfold predict
  cases sGet LEARNABLE_PARAMS tool with
  | none => rfl
  | some pn =>
    dsimp only
    cases sGet args pn with
    | none => rfl
    | some cur =>
      dsimp only
      rw [hw, hc]
      split
      · rfl
      · split <;> rfl

/-- C6: context isolation.  A feedback record whose context falls in a
different bucket than the queried context — in particular a correction
logged under `evening_weekday` against a query under `morning_weekday` —
never changes the result of `predict`: inserting such a record anywhere into
the store leaves the prediction for that tool, arguments and context
unchanged. -/
theorem c6_context_isolation :
    ∀ (now : ℤ) (tool : String) (args : List (String × PVal)) (ctx : Context)
      (l1 l2 : List Row) (r : Row) (m1 m2 : Model),
      (∀ c, r.context = some c →
        get_context_key now c ≠ get_context_key now ctx) →
      (predict now (train now ⟨.ok (l1 ++ r :: l2)⟩ m1).1 tool args ctx).2 =
        (predict now (train now ⟨.ok (l1 ++ l2)⟩ m2).1 tool args ctx).2 := by
  intro now tool args ctx l1 l2 r m1 m2 hr
  apply predict_proj
  unfold train
  dsimp only
  rw [List.filter_append, List.filter_append, List.filter_cons]
  by_cases hp : r.user_feedback.isSome
  · rw [if_pos hp]
    rw [List.foldl_append, List.foldl_append, List.foldl_cons]
    apply foldl_lfi_agree
    exact agree_symm _ (lfi_skip now _ _ r _ hr)
  · rw [if_neg hp]
    exact agree_refl _ _

theorem c6_context_isolation_witness :
    (∀ c, row24.context = some c →
      get_context_key 0 c ≠ get_context_key 0 ctx9) ∧
    (predict 0 (train 0 ⟨.ok ([] ++ row24 :: [row24])⟩ Model.init).1
        "set_temperature" args26 ctx9).2 =
      (predict 0 (train 0 ⟨.ok ([] ++ [row24])⟩ M1).1
        "set_temperature" args26 ctx9).2 :=
  ⟨by decide,
   c6_context_isolation 0 "set_temperature" args26 ctx9 [] [row24] row24
     Model.init M1 (by decide)⟩

theorem innerOk_bump (v : PVal) (inc : ℚ) (h1 : 1 ≤ inc) (h2 : inc ≤ 2) :
    ∀ {wl : List (PVal × ℚ)} {cl : List (PVal × ℤ)}, InnerOk wl cl →
      InnerOk (aBump pyEq wl v 0 (fun w => ratAdd w inc))
        (aBump pyEq cl v 0 (fun c => c + 1)) := by
  intro wl cl h
  unfold InnerOk at h ⊢
  induction h with
  | nil =>
    refine List.Forall₂.cons ⟨rfl, ?_, ?_, ?_⟩ List.Forall₂.nil <;> dsimp only
    · norm_num
    · rw [ratAdd_eq_add]; push_cast; linarith
    · rw [ratAdd_eq_add]; push_cast; linarith
  | @cons wp cp wtl ctl hR hF ih =>
    obtain ⟨wk, wv⟩ := wp
    obtain ⟨ck', cv⟩ := cp
    obtain ⟨hkeq, hc1, hcw, hw2⟩ := hR
    dsimp only at hkeq
    subst hkeq
    by_cases he : pyEq wk v
    · simp only [aBump, he, if_true]
      refine List.Forall₂.cons ⟨rfl, ?_, ?_, ?_⟩ hF
      · omega
      · rw [ratAdd_eq_add]; push_cast; push_cast at hcw; linarith
      · rw [ratAdd_eq_add]; push_cast; push_cast at hw2; linarith
    · simp only [aBump, he, Bool.false_eq_true, if_false]
      exact List.Forall₂.cons ⟨rfl, hc1, hcw, hw2⟩ ih

theorem innerSum_bump (v : PVal) :
    ∀ (cl : List (PVal × ℤ)),
      innerSum (aBump pyEq cl v 0 (fun c => c + 1)) = innerSum cl + 1 := by
  intro cl
  induction cl with
  | nil => simp [innerSum, aBump]
  | cons hd tl ih =>
    obtain ⟨k, c⟩ := hd
    by_cases he : pyEq k v
    · simp only [aBump, he, if_true, innerSum, List.map_cons, List.sum_cons]
      omega
    · simp only [aBump, he, Bool.false_eq_true, if_false, innerSum,
        List.map_cons, List.sum_cons]
      unfold innerSum at ih
      omega

theorem midOk_bump (ck : String) (v : PVal) (inc : ℚ) (h1 : 1 ≤ inc)
    (h2 : inc ≤ 2) :
    ∀ {wm : List (String × List (PVal × ℚ))}
      {cm : List (String × List (PVal × ℤ))}, MidOk wm cm →
      MidOk
        (aBump strEq wm ck []
          (fun mid => aBump pyEq mid v 0 (fun w => ratAdd w inc)))
        (aBump strEq cm ck []
          (fun mid => aBump pyEq mid v 0 (fun c => c + 1))) := by
  intro wm cm h
  unfold MidOk at h ⊢
  induction h with
  | nil =>
    exact List.Forall₂.cons
      ⟨rfl, innerOk_bump v inc h1 h2 List.Forall₂.nil⟩ List.Forall₂.nil
  | @cons wp cp wtl ctl hR hF ih =>
    obtain ⟨wk, wmid⟩ := wp
    obtain ⟨ck', cmid⟩ := cp
    obtain ⟨hkeq, hInner⟩ := hR
    dsimp only at hkeq
    subst hkeq
    by_cases he : strEq wk ck
    · simp only [aBump, he, if_true]
      exact List.Forall₂.cons ⟨rfl, innerOk_bump v inc h1 h2 hInner⟩ hF
    · simp only [aBump, he, Bool.false_eq_true, if_false]
      exact List.Forall₂.cons ⟨rfl, hInner⟩ ih

theorem midSum_bump (ck : String) (v : PVal) :
    ∀ (cm : List (String × List (PVal × ℤ))),
      midSum (aBump strEq cm ck []
        (fun mid => aBump pyEq mid v 0 (fun c => c + 1))) = midSum cm + 1 := by
  intro cm
  induction cm with
  | nil => simp [midSum, aBump, innerSum_bump, innerSum]
  | cons hd tl ih =>
    obtain ⟨k, mid⟩ := hd
    by_cases he : strEq k ck
    · simp only [aBump, he, if_true, midSum, List.map_cons, List.sum_cons,
        innerSum_bump]
      omega
    · simp only [aBump, he, Bool.false_eq_true, if_false, midSum,
        List.map_cons, List.sum_cons]
      unfold midSum at ih
      omega

theorem topOk_bump (tool ck : String) (v : PVal) (inc : ℚ) (h1 : 1 ≤ inc)
    (h2 : inc ≤ 2) :
    ∀ {w : WTable} {c : CTable}, TopOk w c →
      TopOk (wBump w tool ck v inc) (cBump c tool ck v) := by
  intro w c h
  unfold TopOk at h ⊢
  unfold wBump cBump
  induction h with
  | nil =>
    exact List.Forall₂.cons
      ⟨rfl, midOk_bump ck v inc h1 h2 List.Forall₂.nil⟩ List.Forall₂.nil
  | @cons wp cp wtl ctl hR hF ih =>
    obtain ⟨wk, wmid⟩ := wp
    obtain ⟨ck', cmid⟩ := cp
    obtain ⟨hkeq, hMid⟩ := hR
    dsimp only at hkeq
    subst hkeq
    by_cases he : strEq wk tool
    · simp only [aBump, he, if_true]
      exact List.Forall₂.cons ⟨rfl, midOk_bump ck v inc h1 h2 hMid⟩ hF
    · simp only [aBump, he, Bool.false_eq_true, if_false]
      exact List.Forall₂.cons ⟨rfl, hMid⟩ ih

theorem topSum_bump (tool ck : String) (v : PVal) :
    ∀ (c : CTable), topSum (cBump c tool ck v) = topSum c + 1 := by
  intro c
  unfold cBump
  induction c with
  | nil => simp [topSum, aBump, midSum_bump, midSum, innerSum]
  | cons hd tl ih =>
    obtain ⟨k, mid⟩ := hd
    by_cases he : strEq k tool
    · simp only [aBump, he, if_true, topSum, List.map_cons, List.sum_cons,
        midSum_bump]
      omega
    · simp only [aBump, he, Bool.false_eq_true, if_false, topSum,
        List.map_cons, List.sum_cons]
      unfold topSum at ih
      omega

theorem trainInv_bump (m : Model) (s : Stats) (tool ck : String) (v : PVal)
    (inc : ℚ) (h1 : 1 ≤ inc) (h2 : inc ≤ 2) (h : TrainInv (m, s)) :
    TrainInv (m.bump tool ck v inc, s.bump tool) := by
  obtain ⟨hok, hsum⟩ := h
  have hsum' : s.preferences_learned = topSum m.confidence := hsum
  constructor
  · exact topOk_bump tool ck v inc h1 h2 hok
  · simp only [Model.bump, Stats.bump, topSum_bump, hsum']

theorem lfc_inv (now : ℤ) (corr : String) (ctx : Context) (m : Model)
    (s : Stats) (h : TrainInv (m, s)) :
    TrainInv (learn_from_correction now m corr ctx s) := by
  unfold learn_from_correction
  rcases h1 : extractTemp corr with _ | t <;>
    rcases h2 : extractBrightness corr with _ | b <;>
      rcases h3 : extractSpeed corr with _ | sp <;>
        dsimp only <;>
        (repeat'
          first
            | exact h
            | refine trainInv_bump _ _ _ _ _ _ (by norm_num) (by norm_num) ?_)

theorem reinforce_step_inv (now : ℤ) (ctx : Context) (p : Model × Stats)
    (act : ActionCall) (h : TrainInv p) :
    TrainInv (reinforce_step now ctx p act) := by
  unfold reinforce_step
  cases act.tool with
  | none => exact h
  | some tn =>
    dsimp only
    cases sGet LEARNABLE_PARAMS tn with
    | none => exact h
    | some pn =>
      dsimp only
      cases sGet act.arguments pn with
      | none => exact h
      | some v =>
        exact trainInv_bump p.1 p.2 tn _ v 1 (by norm_num) (by norm_num) h

theorem reinforce_fold_inv (now : ℤ) (ctx : Context) :
    ∀ (acts : List ActionCall) (p : Model × Stats), TrainInv p →
      TrainInv (acts.foldl (reinforce_step now ctx) p) := by
  intro acts
  induction acts with
  | nil => intro p h; exact h
  | cons act rest ih =>
    intro p h
    simp only [List.foldl_cons]
    exact ih _ (reinforce_step_inv now ctx p act h)

theorem reinforce_inv (now : ℤ) (m : Model) (aa : AgentAction) (ctx : Context)
    (s : Stats) (h : TrainInv (m, s)) :
    TrainInv (reinforce_action now m aa ctx s) := by
  unfold reinforce_action
  cases aa.actions with
  | none => exact h
  | some acts => exact reinforce_fold_inv now ctx acts (m, s) h

theorem lfi_inv (now : ℤ) (m : Model) (row : Row) (s : Stats)
    (h : TrainInv (m, s)) :
    TrainInv (learn_from_interaction now m row s) := by
  unfold learn_from_interaction
  cases row.agent_action with
  | none => exact h
  | some aa =>
    cases row.context with
    | none => exact h
    | some ctx =>
      cases row.user_feedback with
      | none => exact h
      | some f =>
        dsimp only
        split
        · split
          · exact lfc_inv now _ ctx m s h
          · exact h
        · split
          · exact reinforce_inv now m aa ctx s h
          · exact h

theorem foldl_lfi_inv (now : ℤ) :
    ∀ (l : List Row) (p : Model × Stats), TrainInv p →
      TrainInv (l.foldl (fun q r => learn_from_interaction now q.1 r q.2) p) := by
  intro l
  induction l with
  | nil => intro p h; exact h
  | cons row rest ih =>
    intro p h
    simp only [List.foldl_cons]
    exact ih _ (lfi_inv now p.1 row p.2 h)

theorem topOk_lookup :
    ∀ {w : WTable} {c : CTable}, TopOk w c →
      ∀ (tool : String) (cm : List (String × List (PVal × ℤ))),
        aGet strEq c tool = some cm →
        ∃ wm, aGet strEq w tool = some wm ∧ MidOk wm cm := by
  intro w c h
  unfold TopOk at h
  induction h with
  | nil => intro tool cm hcm; simp [aGet_nil] at hcm
  | @cons wp cp wtl ctl hR hF ih =>
    intro tool cm hcm
    obtain ⟨wk, wmid⟩ := wp
    obtain ⟨ck', cmid⟩ := cp
    obtain ⟨hkeq, hMid⟩ := hR
    dsimp only at hkeq
    subst hkeq
    rw [aGet_cons] at hcm ⊢
    by_cases he : strEq wk tool
    · rw [if_pos he] at hcm ⊢
      exact ⟨wmid, rfl, by injection hcm with h; rw [← h]; exact hMid⟩
    · rw [if_neg (by simp [he])] at hcm ⊢
      exact ih tool cm hcm

theorem midOk_lookup :
    ∀ {wm : List (String × List (PVal × ℚ))}
      {cm : List (String × List (PVal × ℤ))}, MidOk wm cm →
      ∀ (ck : String) (ci : List (PVal × ℤ)),
        aGet strEq cm ck = some ci →
        ∃ wi, aGet strEq wm ck = some wi ∧ InnerOk wi ci := by
  intro wm cm h
  unfold MidOk at h
  induction h with
  | nil => intro ck ci hci; simp [aGet_nil] at hci
  | @cons wp cp wtl ctl hR hF ih =>
    intro ck ci hci
    obtain ⟨wk, wi'⟩ := wp
    obtain ⟨ck', ci'⟩ := cp
    obtain ⟨hkeq, hInner⟩ := hR
    dsimp only at hkeq
    subst hkeq
    rw [aGet_cons] at hci ⊢
    by_cases he : strEq wk ck
    · rw [if_pos he] at hci ⊢
      exact ⟨wi', rfl, by injection hci with h; rw [← h]; exact hInner⟩
    · rw [if_neg (by simp [he])] at hci ⊢
      exact ih ck ci hci

theorem innerOk_lookup :
    ∀ {wi : List (PVal × ℚ)} {ci : List (PVal × ℤ)}, InnerOk wi ci →
      ∀ (v : PVal) (c : ℤ), aGet pyEq ci v = some c →
        ∃ w, aGet pyEq wi v = some w ∧
          1 ≤ c ∧ (c : ℚ) ≤ w ∧ w ≤ 2 * (c : ℚ) := by
  intro wi ci h
  unfold InnerOk at h
  induction h with
  | nil => intro v c hc; simp [aGet_nil] at hc
  | @cons wp cp wtl ctl hR hF ih =>
    intro v c hc
    obtain ⟨wk, wv⟩ := wp
    obtain ⟨ck', cv⟩ := cp
    obtain ⟨hkeq, hc1, hcw, hw2⟩ := hR
    dsimp only at hkeq
    subst hkeq
    rw [aGet_cons] at hc ⊢
    by_cases he : pyEq wk v
    · rw [if_pos he] at hc ⊢
      refine ⟨wv, rfl, ?_, ?_, ?_⟩ <;>
        (injection hc with h; subst h)
      · exact hc1
      · exact hcw
      · exact hw2
    · rw [if_neg (by simp [he])] at hc ⊢
      exact ih v c hc

/-- C10: after every successful `train()` call, every
`(tool, context bucket, value)` triple of the confidence table carries an
integer count ≥ 1, the same triple is present in the weight table, and
`count ≤ weight ≤ 2·count` (a correction event adds weight 2.0 / count 1, a
reinforcement event weight 1.0 / count 1); and `preferences_learned` of the
returned stats equals the sum of all counts in the confidence table. -/
theorem c10_train_invariant (now : ℤ) (store : Store) (m m' : Model)
    (stats : TrainStats)
    (h : train now store m = (m', .ok stats)) :
    (∀ (tool ck : String) (v : PVal) (c : ℤ),
       cLookup m' tool ck v = some c →
       1 ≤ c ∧ ∃ w, wLookup m' tool ck v = some w ∧
         (c : ℚ) ≤ w ∧ w ≤ 2 * (c : ℚ)) ∧
    stats.preferences_learned = topSum m'.confidence := by
  cases hdb : store.db with
  | error e =>
    unfold train at h
    rw [hdb] at h
    exact absurd (congrArg Prod.snd h) (by simp)
  | ok rows =>
    unfold train at h
    rw [hdb] at h
    dsimp only at h
    injection h with hm hrest
    injection hrest with hstats
    have hInv := foldl_lfi_inv now
      (rows.filter (fun r => r.user_feedback.isSome))
      ({ preferences := [], confidence := [] },
       { preferences_learned := 0, tools_updated := [] })
      ⟨List.Forall₂.nil, rfl⟩
    obtain ⟨hok, hsum⟩ := hInv
    constructor
    · intro tool ck v c hc
      rw [← hm] at hc
      unfold cLookup getSub sGet pGet at hc
      rcases Option.bind_eq_some.mp hc with ⟨inner, hinner, hv⟩
      rcases Option.bind_eq_some.mp hinner with ⟨midc, hmidc, hckc⟩
      obtain ⟨wm, hwm, hMid⟩ := topOk_lookup hok tool midc hmidc
      obtain ⟨wi, hwi, hInner⟩ := midOk_lookup hMid ck inner hckc
      obtain ⟨w, hw, hc1, hcw, hw2⟩ := innerOk_lookup hInner v c hv
      refine ⟨hc1, w, ?_, hcw, hw2⟩
      unfold wLookup getSub sGet pGet
      rw [← hm, hwm]
      simp only [Option.some_bind]
      rw [hwi]
      simp only [Option.some_bind]
      exact hw
    · rw [← hstats]
      dsimp only
      rw [hsum, hm]

theorem c10_train_invariant_witness :
    (1 ≤ (2 : ℤ) ∧
      ∃ w, wLookup M2 "set_temperature" "evening_weekday" (.pfloat 24) =
          some w ∧
        ((2 : ℤ) : ℚ) ≤ w ∧ w ≤ 2 * ((2 : ℤ) : ℚ)) ∧
    S2.preferences_learned = topSum M2.confidence :=
  ⟨(c10_train_invariant 0 store2 Model.init M2 S2 rfl).1
     "set_temperature" "evening_weekday" (.pfloat 24) 2 (by decide),
   (c10_train_invariant 0 store2 Model.init M2 S2 rfl).2⟩

end SmartHomeAI
